import Mathlib

/-!
# Verification of the pdrng seed-derivation core

Shallow embedding of the deterministic value-generation library `pdrng`
(`index.js`): seed normalization, digit extraction, digit-fill expansion,
range selection, batch generation and float generation, together with
proofs of the specified properties.

JavaScript numbers that the library treats as exact integers are embedded
as `Nat`; raw numeric seed inputs (which may be fractional or negative)
are embedded as `ℚ`; JavaScript strings are sequences of UTF-16 code
units, obtained from their characters' code points.  String-building and
`Number(...)` parsing of decimal strings are embedded as lists of decimal
digits (most significant first) and a fold-based parse.
-/

namespace Pdrng

/-- Default seed constant of the library (`DEFAULT_SEED = 814`). -/
def DEFAULT_SEED : Nat := 814

/-- Raw seed input: the union of representations a caller may supply
(`undefined`, `null`, a JavaScript number, or a string). -/
inductive RawSeed where
  | undefined : RawSeed
  | null : RawSeed
  | num : ℚ → RawSeed
  | str : String → RawSeed

/-- UTF-16 code units of one character, as produced by JavaScript
`charCodeAt`: code points below 0x10000 are one unit, larger code points
are a surrogate pair. -/
def charUnits (c : Char) : List Nat :=
  if c.toNat < 65536 then [c.toNat]
  else [55296 + (c.toNat - 65536) / 1024, 56320 + (c.toNat - 65536) % 1024]

/-- UTF-16 code units of a character sequence (the JavaScript view of the
string, indexed by `charCodeAt`). -/
def utf16Units (s : List Char) : List Nat :=
  (s.map charUnits).flatten

/-- The summation loop of `_textToSeed`: `sum += str.charCodeAt(i) * (i + 1)`,
over the code units starting at position `i`. -/
def sumUnits : List Nat → Nat → Nat
  | [], _ => 0
  | u :: rest, i => u * (i + 1) + sumUnits rest (i + 1)

/-- Embeds `_textToSeed`: sum of `charCodeAt(i) * (i + 1)` over all UTF-16
code-unit positions of the string. -/
def textToSeed (s : String) : Nat :=
  sumUnits (utf16Units s.data) 0

/-- Embeds `_normalizeSeed`: `undefined`/`null` give the default seed;
strings are hashed by `_textToSeed` (returned directly, with no zero
check); numbers are floored, then made nonnegative (`Math.abs(Math.floor(n))`),
with an exact-zero result replaced by the default seed. -/
def normalizeSeed : RawSeed → Nat
  | .undefined => DEFAULT_SEED
  | .null => DEFAULT_SEED
  | .str s => textToSeed s
  | .num q => if (⌊q⌋).natAbs = 0 then DEFAULT_SEED else (⌊q⌋).natAbs

/-- Little-endian decimal digits computed by fuel-bounded structural
recursion (so that concrete values reduce in the kernel). -/
def digAux : Nat → Nat → List Nat
  | _, 0 => []
  | 0, _ + 1 => []
  | fuel + 1, n + 1 => (n + 1) % 10 :: digAux fuel ((n + 1) / 10)

/-- Little-endian decimal digits of a natural number. -/
def jsDigitsLE (n : Nat) : List Nat :=
  digAux n n

/-- Embeds `String(seed).split('').map(Number)`: decimal digits, most
significant first (`String(0)` is `"0"`). -/
def jsString (n : Nat) : List Nat :=
  if n = 0 then [0] else (jsDigitsLE n).reverse

/-- Decimal digit count of `n` (the length of its `String` form). -/
def digitCount (n : Nat) : Nat :=
  (jsString n).length

/-- Embeds `Number` applied to a decimal digit string: left fold
`a * 10 + d` (the empty string parses to `0`). -/
def parseDigits (l : List Nat) : Nat :=
  l.foldl (fun a d => 10 * a + d) 0

/-- Embeds `_digitSum`: `reduce((a, b) => a + b, 0)` over the digits. -/
def digitSum (n : Nat) : Nat :=
  (jsString n).foldl (· + ·) 0

/-- Embeds `_digitProduct`: `reduce((a, b) => a * b, 1)` over the digits. -/
def digitProduct (n : Nat) : Nat :=
  (jsString n).foldl (· * ·) 1

/-- Embeds `_firstDigit`: `_digits(seed)[0]` (the digit list is never
empty for a natural-number seed). -/
def firstDigit (n : Nat) : Nat :=
  (jsString n).headD 0

/-- Embeds `_lastDigit`: `_digits(seed)[d.length - 1]`. -/
def lastDigit (n : Nat) : Nat :=
  (jsString n).getLastD 0

/-- Embeds JavaScript `str.slice(-n)`: the last `n` characters, except
that `slice(-0)` is `slice(0)`, the whole string. -/
def jsSliceNeg (s : List Nat) (n : Nat) : List Nat :=
  if n = 0 then s else s.drop (s.length - n)

/-- Embeds `_lastN`: the seed itself when `n >= str.length`, otherwise
`Number(str.slice(-n))`. -/
def lastN (seed n : Nat) : Nat :=
  if (jsString seed).length ≤ n then seed
  else parseDigits (jsSliceNeg (jsString seed) n)

/-- Remainder segment appended by the `count > seedLen` arm of
`_fillDigits`: nothing when `count mod seedLen` is zero, the first digit
when it is 1, and the `String` form of `_lastN(seed, remainder)` when it
is at least 2. -/
def fillRem (seed cnt : Nat) : List Nat :=
  if cnt % (jsString seed).length = 0 then []
  else if cnt % (jsString seed).length = 1 then jsString (firstDigit seed)
  else jsString (lastN seed (cnt % (jsString seed).length))

/-- Digit string built by the `count > seedLen` arm of `_fillDigits`:
the seed's digit string repeated `floor(count / seedLen)` times followed
by the remainder segment. -/
def fillTail (seed cnt : Nat) : List Nat :=
  (List.replicate (cnt / (jsString seed).length) (jsString seed)).flatten ++
    fillRem seed cnt

/-- The positive-count body of `_fillDigits` (after the `count <= 0`
guard): first digit or last-`count` digits when `count` is below the seed
length, the seed itself at the seed length, otherwise the parsed
repetition string. -/
def fillPos (seed cnt : Nat) : Nat :=
  if cnt < (jsString seed).length then
    (if cnt = 1 then firstDigit seed else lastN seed cnt)
  else if cnt = (jsString seed).length then seed
  else parseDigits (fillTail seed cnt)

/-- Embeds `_fillDigits`: `0` for a non-positive count, otherwise the
digit-fill expansion of the seed to `count` digits. -/
def fillDigits (seed : Nat) (count : Int) : Nat :=
  if count ≤ 0 then 0 else fillPos seed count.toNat

/-- Embeds the top-level generator `pdrng(digits, options)`. -/
def pdrng (digits : Int) (raw : RawSeed) : Nat :=
  fillDigits (normalizeSeed raw) digits

/-- Digit string built by `float`: `String(filled).padStart(precision, '0')`,
the filled value's digits left-padded with zeros to the requested
precision (no padding when the precision is not larger than the length,
including non-positive precisions). -/
def floatDigits (precision : Int) (raw : RawSeed) : List Nat :=
  List.replicate
      (precision.toNat - (jsString (fillDigits (normalizeSeed raw) precision)).length) 0 ++
    jsString (fillDigits (normalizeSeed raw) precision)

/-- Embeds `float(precision, options)`: the exact rational value of
`'0.' + String(filled).padStart(precision, '0')`. -/
def float (precision : Int) (raw : RawSeed) : ℚ :=
  (parseDigits (floatDigits precision raw) : ℚ) / 10 ^ (floatDigits precision raw).length

/-- Embeds `range(min, max, options)`: `min + (seed % (max - min + 1))`
(plain modulo; the normalized seed is nonnegative, so the JavaScript
remainder agrees with `Int.emod` for a nonzero modulus). -/
def range (mn mx : Int) (raw : RawSeed) : Int :=
  mn + (normalizeSeed raw : Int) % (mx - mn + 1)

/-- The loop body of `array`: element `i` pushes
`_fillDigits(_normalizeSeed(seed + i * _digitProduct(seed)), digits)`,
with `remaining` iterations left. -/
def arrayLoop (seed : Nat) (digits : Int) : Nat → Nat → List Nat → List Nat
  | _, 0, acc => acc
  | i, r + 1, acc =>
      arrayLoop seed digits (i + 1) r
        (acc ++ [fillDigits
          (normalizeSeed (.num ((seed + i * digitProduct seed : Nat) : ℚ))) digits])

/-- Embeds `array(count, digits, options)`: the push loop over
`i = 0 .. count - 1` on the normalized seed. -/
def array (count : Nat) (digits : Int) (raw : RawSeed) : List Nat :=
  arrayLoop (normalizeSeed raw) digits 0 count []

/-- Modelled from the spec: the text-to-integer hash as the specification
states it, a sum over character positions of the character's code point
times `(i + 1)` (the source's `_textToSeed` sums UTF-16 code units
instead). -/
def textToSeedSpec (s : String) : Nat :=
  ∑ i in Finset.range s.data.length, (s.data.getD i default).toNat * (i + 1)

/-- Modelled from the spec: the claimed numeric normalization order,
absolute value first and floor second, with an exact-zero result replaced
by the default seed (the source floors first and applies `Math.abs`
second). -/
def normalizeNumSpec (q : ℚ) : Nat :=
  if (⌊|q|⌋).toNat = 0 then DEFAULT_SEED else (⌊|q|⌋).toNat

/-- Modelled from the spec: the priority candidate list of the Priority
Range Selector, which is absent from `index.js` (its `range` is plain
modulo although the repository's own test suite, changelog and one README
expect the priority behavior): full seed, then the last-`(digitCount-1)`
down to last-2-digit values, then the first digit, the last digit, and
the middle digits left to right. -/
def priorityList (seed : Nat) : List Nat :=
  [seed] ++
    (List.range (digitCount seed - 2)).map (fun k => lastN seed (digitCount seed - 1 - k)) ++
    [firstDigit seed, lastDigit seed] ++
    ((jsString seed).drop 1).dropLast

/-- Modelled from the spec: `selectInRange` returns the first priority
candidate inside the inclusive bounds, falling back to
`min + (seed mod (max - min + 1))` when no candidate qualifies. -/
def selectInRangeSpec (seed : Nat) (mn mx : Int) : Int :=
  match (priorityList seed).find? (fun c => mn ≤ (c : Int) && (c : Int) ≤ mx) with
  | some c => (c : Int)
  | none => mn + (seed : Int) % (mx - mn + 1)

example : jsString 814 = [8, 1, 4] := by decide
example : priorityList 814 = [814, 14, 8, 4, 1] := by decide
example : fillPos 814 5 = 81414 := by decide
example : lastN 105 2 = 5 := by decide
example : textToSeed "brian" = 1579 := by decide
example : selectInRangeSpec 814 1 100 = 14 := by decide
example : range 1 100 (.num 814) = 15 := by decide

/-! ## Toolkit: decimal digit strings and their parse -/

lemma digAux_eq (fuel : Nat) : ∀ n : Nat, n ≤ fuel → digAux fuel n = Nat.digits 10 n := by
  induction fuel with
  | zero =>
      intro n hn
      obtain rfl : n = 0 := Nat.le_zero.mp hn
      simp [digAux]
  | succ f ih =>
      intro n hn
      match n with
      | 0 => simp [digAux]
      | m + 1 =>
          have hdiv : (m + 1) / 10 ≤ f := by
            have := Nat.div_lt_self (Nat.succ_pos m) (by norm_num : 1 < 10)
            omega
          rw [digAux, ih _ hdiv,
            Nat.digits_def' (by norm_num : (1 : Nat) < 10) (Nat.succ_pos m)]

lemma jsDigitsLE_eq (n : Nat) : jsDigitsLE n = Nat.digits 10 n :=
  digAux_eq n n le_rfl

lemma parse_foldl (l : List Nat) :
    ∀ a : Nat, l.foldl (fun x d => 10 * x + d) a = a * 10 ^ l.length + parseDigits l := by
  induction l with
  | nil => intro a; simp [parseDigits]
  | cons d t ih =>
      intro a
      have hd : parseDigits (d :: t) = d * 10 ^ t.length + parseDigits t := by
        simp only [parseDigits, List.foldl_cons, Nat.mul_zero, Nat.zero_add]
        exact ih d
      simp only [List.foldl_cons, List.length_cons, hd]
      rw [ih (10 * a + d)]
      ring

lemma parse_cons (d : Nat) (t : List Nat) :
    parseDigits (d :: t) = d * 10 ^ t.length + parseDigits t := by
  simp only [parseDigits, List.foldl_cons, Nat.mul_zero, Nat.zero_add]
  exact parse_foldl t d

lemma parse_append (a b : List Nat) :
    parseDigits (a ++ b) = parseDigits a * 10 ^ b.length + parseDigits b := by
  simp only [parseDigits, List.foldl_append]
  exact parse_foldl b _

lemma parse_reverse (l : List Nat) : parseDigits l.reverse = Nat.ofDigits 10 l := by
  induction l with
  | nil => simp [parseDigits, Nat.ofDigits_nil]
  | cons d t ih =>
      rw [List.reverse_cons, parse_append, ih, Nat.ofDigits_cons]
      simp [parseDigits]
      ring

lemma parse_jsString (n : Nat) : parseDigits (jsString n) = n := by
  unfold jsString
  split
  · simp [parseDigits]; omega
  · rw [jsDigitsLE_eq, parse_reverse, Nat.ofDigits_digits]

lemma jsString_mem_lt {n d : Nat} (h : d ∈ jsString n) : d < 10 := by
  unfold jsString at h
  split at h
  · simp at h; omega
  · rw [jsDigitsLE_eq, List.mem_reverse] at h
    exact Nat.digits_lt_base (by norm_num) h

lemma jsString_ne_nil (n : Nat) : jsString n ≠ [] := by
  unfold jsString
  split
  · simp
  · rw [jsDigitsLE_eq]
    simp only [ne_eq, List.reverse_eq_nil_iff]
    exact Nat.digits_ne_nil_iff_ne_zero.mpr (by assumption)

lemma digitCount_pos (n : Nat) : 1 ≤ digitCount n := by
  have := jsString_ne_nil n
  unfold digitCount
  exact List.length_pos.mpr this

lemma digitCount_of_ne_zero {n : Nat} (hn : n ≠ 0) :
    digitCount n = Nat.log 10 n + 1 := by
  unfold digitCount jsString
  rw [if_neg hn, List.length_reverse, jsDigitsLE_eq,
    Nat.digits_len 10 n (by norm_num) hn]

lemma lt_pow_digitCount (n : Nat) : n < 10 ^ digitCount n := by
  by_cases hn : n = 0
  · subst hn; simp [digitCount, jsString]
  · rw [digitCount_of_ne_zero hn]
    exact Nat.lt_pow_succ_log_self (by norm_num) n

lemma pow_digitCount_le {n : Nat} (hn : n ≠ 0) : 10 ^ (digitCount n - 1) ≤ n := by
  rw [digitCount_of_ne_zero hn]
  simpa using Nat.pow_log_le_self 10 hn

lemma digitCount_le_of_lt_pow {n k : Nat} (hk : 1 ≤ k) (h : n < 10 ^ k) :
    digitCount n ≤ k := by
  by_cases hn : n = 0
  · subst hn; simpa [digitCount, jsString] using hk
  · rw [digitCount_of_ne_zero hn]
    have := (Nat.lt_pow_iff_log_lt (by norm_num : 1 < 10) hn).mp h
    omega

lemma digitCount_eq_of_bounds {n k : Nat} (h1 : 10 ^ k ≤ n) (h2 : n < 10 ^ (k + 1)) :
    digitCount n = k + 1 := by
  have hn : n ≠ 0 := by
    have : (0 : Nat) < 10 ^ k := Nat.pos_pow_of_pos k (by norm_num)
    omega
  rw [digitCount_of_ne_zero hn, Nat.log_eq_of_pow_le_of_lt_pow h1 h2]

lemma parse_lt (l : List Nat) (h : ∀ d ∈ l, d < 10) :
    parseDigits l < 10 ^ l.length := by
  induction l with
  | nil => simp [parseDigits]
  | cons d t ih =>
      rw [parse_cons, List.length_cons]
      have hd : d < 10 := h d (List.mem_cons_self d t)
      have ht : parseDigits t < 10 ^ t.length :=
        ih fun x hx => h x (List.mem_cons_of_mem d hx)
      calc d * 10 ^ t.length + parseDigits t
          < d * 10 ^ t.length + 10 ^ t.length := by omega
        _ = (d + 1) * 10 ^ t.length := by ring
        _ ≤ 10 * 10 ^ t.length := Nat.mul_le_mul_right _ (by omega)
        _ = 10 ^ (t.length + 1) := by ring

lemma jsString_head {n : Nat} (hn : n ≠ 0) :
    ∃ h t, jsString n = h :: t ∧ h ≠ 0 := by
  have hne : Nat.digits 10 n ≠ [] := Nat.digits_ne_nil_iff_ne_zero.mpr hn
  have hlast := Nat.getLast_digit_ne_zero 10 hn
  refine ⟨(Nat.digits 10 n).getLast hne, (Nat.digits 10 n).dropLast.reverse, ?_, hlast⟩
  unfold jsString
  rw [if_neg hn, jsDigitsLE_eq]
  conv_lhs => rw [← List.dropLast_append_getLast hne]
  rw [List.reverse_append]
  rfl

lemma jsString_single {d : Nat} (hd : d < 10) : jsString d = [d] := by
  by_cases h0 : d = 0
  · subst h0; rfl
  · unfold jsString
    rw [if_neg h0, jsDigitsLE_eq, Nat.digits_of_lt 10 d h0 hd]
    rfl

lemma digitCount_single {d : Nat} (hd : d < 10) : digitCount d = 1 := by
  unfold digitCount
  rw [jsString_single hd]
  rfl

lemma normalizeSeed_num (q : ℚ) :
    normalizeSeed (.num q) =
      if (⌊q⌋).natAbs = 0 then DEFAULT_SEED else (⌊q⌋).natAbs := rfl

lemma parse_drop_mod {n k : Nat} (hk1 : 1 ≤ k) (hk : k < digitCount n) :
    ((jsString n).drop (digitCount n - k)).length = k ∧
      parseDigits ((jsString n).drop (digitCount n - k)) = n % 10 ^ k := by
  have hlen : ((jsString n).drop (digitCount n - k)).length = k := by
    rw [List.length_drop]
    unfold digitCount at *
    omega
  refine ⟨hlen, ?_⟩
  have hsplit := List.take_append_drop (digitCount n - k) (jsString n)
  have hval : parseDigits (jsString n) = n := parse_jsString n
  rw [← hsplit, parse_append, hlen] at hval
  have hlt : parseDigits ((jsString n).drop (digitCount n - k)) < 10 ^ k := by
    have := parse_lt ((jsString n).drop (digitCount n - k))
      (fun d hd => jsString_mem_lt (List.drop_subset _ _ hd))
    rwa [hlen] at this
  have h2 : n % 10 ^ k = parseDigits ((jsString n).drop (digitCount n - k)) := by
    conv_lhs => rw [← hval]
    rw [Nat.mul_comm (parseDigits (List.take (digitCount n - k) (jsString n))) (10 ^ k),
      Nat.mul_add_mod, Nat.mod_eq_of_lt hlt]
  exact h2.symm

lemma lastN_eq_mod {n k : Nat} (hk1 : 1 ≤ k) (hk : k < digitCount n) :
    lastN n k = n % 10 ^ k := by
  unfold lastN jsSliceNeg
  rw [if_neg (by unfold digitCount at hk; omega),
    if_neg (by omega : ¬ k = 0)]
  exact (parse_drop_mod hk1 hk).2

lemma lastN_of_le {n k : Nat} (hk : digitCount n ≤ k) : lastN n k = n := by
  unfold digitCount at hk
  unfold lastN
  rw [if_pos hk]

lemma mod_pow_digitCount {n k : Nat} (hk1 : 1 ≤ k) (hk : k < digitCount n)
    (hz : (0 : Nat) ∉ jsString n) : digitCount (n % 10 ^ k) = k := by
  obtain ⟨hlen, hval⟩ := parse_drop_mod hk1 hk
  obtain ⟨d, t, hdt⟩ : ∃ d t, (jsString n).drop (digitCount n - k) = d :: t := by
    match hcase : (jsString n).drop (digitCount n - k) with
    | [] => rw [hcase] at hlen; simp at hlen; omega
    | d :: t => exact ⟨d, t, rfl⟩
  have hd0 : d ≠ 0 := by
    intro hd
    apply hz
    subst hd
    exact List.drop_subset _ _ (hdt ▸ List.mem_cons_self 0 t)
  have htlen : t.length = k - 1 := by
    rw [hdt] at hlen
    simp at hlen
    omega
  have hge : 10 ^ (k - 1) ≤ n % 10 ^ k := by
    rw [← hval, hdt, parse_cons, htlen]
    have : 1 * 10 ^ (k - 1) ≤ d * 10 ^ (k - 1) :=
      Nat.mul_le_mul_right _ (by omega)
    omega
  have hlt : n % 10 ^ k < 10 ^ k := Nat.mod_lt n (Nat.pos_pow_of_pos k (by norm_num))
  have := digitCount_eq_of_bounds hge (by
    have hkk : k - 1 + 1 = k := by omega
    rwa [hkk])
  omega

/-! ## Claim C5: fill exactness at seed 814 -/

/-- Claim C5: for seed 814 the fill operation returns exactly
`fill(814,1)=8`, `fill(814,2)=14`, `fill(814,3)=814`, `fill(814,4)=8148`,
`fill(814,5)=81414`, `fill(814,6)=814814`, and `fill(814,0)=0`. -/
theorem fill_814_values :
    fillDigits 814 1 = 8 ∧ fillDigits 814 2 = 14 ∧ fillDigits 814 3 = 814 ∧
    fillDigits 814 4 = 8148 ∧ fillDigits 814 5 = 81414 ∧
    fillDigits 814 6 = 814814 ∧ fillDigits 814 0 = 0 := by
  decide

/-! ## Claim C1: range selection at seed 814 -/

/-- Claim C1 (code bug): the specification, the repository's own test
suite and changelog describe a priority-based `selectInRange` giving 14
on `[1,100]` and 4 on `[1,6]` for seed 814, but the `range` in
`index.js` is plain modulo and returns 15 and 5 there. -/
theorem range_priority_bug :
    range 1 100 (.num 814) = 15 ∧ range 1 6 (.num 814) = 5 ∧
    selectInRangeSpec 814 1 100 = 14 ∧ selectInRangeSpec 814 1 6 = 4 := by
  decide

/-! ## Claims C3 and C4: seed normalization -/

/-- Counterexample to claim C3: the string branch of `_normalizeSeed`
returns the text hash without the zero check, so the empty string
normalizes to 0, not to the default seed 814, and the result is not
strictly positive. -/
theorem normalize_empty_string_zero :
    normalizeSeed (.str "") = 0 ∧ ¬ 1 ≤ normalizeSeed (.str "") := by
  decide

/-- Claim C3 as amended: absent/null inputs normalize to the default
seed; numeric inputs always normalize to a strictly positive integer
(zero results are replaced by 814); string inputs are returned as their
hash with no zero substitution, so they are strictly positive exactly
when the hash is nonzero, and the empty string yields 0. -/
theorem normalize_positivity :
    normalizeSeed .undefined = DEFAULT_SEED ∧
    normalizeSeed .null = DEFAULT_SEED ∧
    (∀ q : ℚ, 1 ≤ normalizeSeed (.num q)) ∧
    (∀ s : String, normalizeSeed (.str s) = textToSeed s) ∧
    (∀ s : String, textToSeed s ≠ 0 → 1 ≤ normalizeSeed (.str s)) ∧
    normalizeSeed (.str "") = 0 := by
  refine ⟨rfl, rfl, ?_, fun s => rfl, ?_, by decide⟩
  · intro q
    rw [normalizeSeed_num]
    split
    · decide
    · omega
  · intro s hs
    have h : normalizeSeed (.str s) = textToSeed s := rfl
    omega

/-- Witness for the amended claim C3 at concrete inputs. -/
theorem normalize_positivity_witness :
    1 ≤ normalizeSeed (.num (-1/2 : ℚ)) ∧ 1 ≤ normalizeSeed (.str "brian") := by
  constructor
  · exact normalize_positivity.2.2.1 (-1/2)
  · exact normalize_positivity.2.2.2.2.1 "brian" (by decide)

/-- Counterexample to claim C4: `_normalizeSeed` floors first and takes
the absolute value second, so the raw numeric seed -1/2 normalizes to 1
(`abs(floor(-1/2)) = abs(-1) = 1`), while the claimed abs-then-floor
order would give `floor(abs(-1/2)) = 0`, replaced by the default 814. -/
theorem normalize_neg_half :
    normalizeSeed (.num (-1/2 : ℚ)) = 1 ∧ normalizeNumSpec (-1/2 : ℚ) = 814 := by
  have hfloor : ⌊(-1/2 : ℚ)⌋ = -1 := by norm_num [Int.floor_eq_iff]
  have habs : ⌊|(-1/2 : ℚ)|⌋ = 0 := by
    rw [show |(-1/2 : ℚ)| = 1/2 by norm_num]
    norm_num [Int.floor_eq_iff]
  constructor
  · simp [normalizeSeed, hfloor]
  · simp [normalizeNumSpec, habs, DEFAULT_SEED]

/-- Claim C4 as amended: the code floors first and takes the absolute
value second; this agrees with the claimed abs-then-floor order for all
nonnegative and all integral numeric seeds (in particular
`normalize(-42) = 42`, `normalize(814.9) = 814`, `normalize(0.5) = 814`),
and differs only on negative non-integral seeds such as -1/2. -/
theorem normalize_num_order :
    (∀ q : ℚ, 0 ≤ q → normalizeSeed (.num q) = normalizeNumSpec q) ∧
    (∀ z : ℤ, normalizeSeed (.num (z : ℚ)) = normalizeNumSpec (z : ℚ)) ∧
    normalizeSeed (.num (-42 : ℚ)) = 42 ∧
    normalizeSeed (.num (8149/10 : ℚ)) = 814 ∧
    normalizeSeed (.num (1/2 : ℚ)) = 814 := by
  refine ⟨?_, ?_, ?_, ?_, ?_⟩
  · intro q hq
    rw [normalizeSeed_num]
    unfold normalizeNumSpec
    rw [abs_of_nonneg hq]
    have hf : 0 ≤ ⌊q⌋ := Int.floor_nonneg.mpr hq
    have hna : (⌊q⌋).natAbs = (⌊q⌋).toNat := by omega
    rw [hna]
  · intro z
    rw [normalizeSeed_num]
    unfold normalizeNumSpec
    have h1 : ⌊(z : ℚ)⌋ = z := Int.floor_intCast z
    have h2 : ⌊|(z : ℚ)|⌋ = |z| := by
      rw [← Int.cast_abs, Int.floor_intCast]
    rw [h1, h2]
    have hna : |z|.toNat = z.natAbs := by
      rw [Int.abs_eq_natAbs, Int.toNat_natCast]
    rw [hna]
  · have hfloor : ⌊(-42 : ℚ)⌋ = -42 := by norm_num [Int.floor_eq_iff]
    simp [normalizeSeed, hfloor]
  · have hfloor : ⌊(8149/10 : ℚ)⌋ = 814 := by norm_num [Int.floor_eq_iff]
    simp [normalizeSeed, hfloor]
  · have hfloor : ⌊(1/2 : ℚ)⌋ = 0 := by norm_num [Int.floor_eq_iff]
    rw [normalizeSeed_num, hfloor]
    decide

/-- Witness for the amended claim C4 at a concrete nonnegative input. -/
theorem normalize_num_order_witness :
    normalizeSeed (.num (7/2 : ℚ)) = normalizeNumSpec (7/2 : ℚ) :=
  normalize_num_order.1 (7/2) (by norm_num)

/-! ## Claim C7: lastN -/

/-- Counterexample to claim C7: for `n = 0` the code hits the JavaScript
`slice(-0) = slice(0)` quirk and returns the whole seed, while the
integer parsed from the last 0 decimal digits (the empty string) is 0. -/
theorem lastN_zero_quirk :
    lastN 5 0 = 5 ∧
    parseDigits (List.drop ((jsString 5).length - 0) (jsString 5)) = 0 := by
  decide

/-- Claim C7 as amended: for every canonical seed and every `n ≥ 1`,
`lastN` returns the seed unchanged when `n` is at least the digit count
and otherwise the integer parsed from the last `n` decimal digits with
leading-zero collapse, which is exactly `seed mod 10^n`; in particular
`lastN(105, 2) = 5`.  For `n = 0` the code returns the seed itself. -/
theorem lastN_mod_characterization :
    (∀ seed n : Nat, 1 ≤ seed → 1 ≤ n →
      lastN seed n = if digitCount seed ≤ n then seed else seed % 10 ^ n) ∧
    lastN 105 2 = 5 ∧ lastN 5 0 = 5 := by
  refine ⟨?_, by decide, by decide⟩
  intro seed n _ hn
  by_cases h : digitCount seed ≤ n
  · rw [if_pos h, lastN_of_le h]
  · rw [if_neg h, lastN_eq_mod hn (by omega)]

/-- Witness for the amended claim C7 at concrete inputs. -/
theorem lastN_mod_characterization_witness :
    lastN 814 2 = if digitCount 814 ≤ 2 then 814 else 814 % 10 ^ 2 :=
  lastN_mod_characterization.1 814 2 (by decide) (by decide)

/-! ## Claim C6: the text hash -/

lemma charUnits_bmp {c : Char} (h : c.toNat < 65536) : charUnits c = [c.toNat] := by
  unfold charUnits
  rw [if_pos h]

lemma utf16Units_bmp (l : List Char) (h : ∀ c ∈ l, c.toNat < 65536) :
    utf16Units l = l.map Char.toNat := by
  unfold utf16Units
  induction l with
  | nil => rfl
  | cons c t ih =>
      rw [List.map_cons, List.flatten_cons, charUnits_bmp (h c (List.mem_cons_self c t)),
        ih fun x hx => h x (List.mem_cons_of_mem c hx), List.map_cons]
      rfl

lemma sumUnits_eq_sum (l : List Nat) :
    ∀ k : Nat, sumUnits l k = ∑ i in Finset.range l.length, l.getD i 0 * (k + i + 1) := by
  induction l with
  | nil => intro k; simp [sumUnits]
  | cons d t ih =>
      intro k
      rw [sumUnits, ih (k + 1), List.length_cons, Finset.sum_range_succ']
      simp only [List.getD_cons_succ, List.getD_cons_zero, Nat.add_zero]
      have hc : ∀ i : Nat, k + (i + 1) + 1 = k + 1 + i + 1 := fun i => by omega
      simp only [hc]
      exact Nat.add_comm _ _

lemma getD_map_toNat (l : List Char) (i : Nat) (h : i < l.length) :
    (l.map Char.toNat).getD i 0 = (l.getD i default).toNat := by
  rw [List.getD_eq_getElem?_getD, List.getD_eq_getElem?_getD, List.getElem?_map,
    List.getElem?_eq_getElem h]
  rfl

/-- Counterexample to claim C6: `_textToSeed` sums UTF-16 code units
(`charCodeAt`), not code points, so for the single astral character
U+1F600 the code weights the two surrogate halves (0xD83D at position 0
and 0xDE00 at position 1) and returns 169021, while the claimed sum of
code points times `(i + 1)` is 128512. -/
theorem textToSeed_astral :
    textToSeed (String.mk [Char.ofNat 128512]) = 169021 ∧
    textToSeedSpec (String.mk [Char.ofNat 128512]) = 128512 := by
  decide

/-- Claim C6 as amended: for every string whose characters all lie in the
Basic Multilingual Plane (code point below 0x10000, where `charCodeAt`
code units and code points coincide), normalize returns the sum over
each character position `i` of the character's code point times
`(i + 1)`; in particular `normalize("brian") = 1579`.  For astral
characters the code sums the UTF-16 surrogate halves instead. -/
theorem textToSeed_codepoint_sum :
    (∀ s : String, (∀ c ∈ s.data, c.toNat < 65536) →
      normalizeSeed (.str s) = textToSeedSpec s) ∧
    normalizeSeed (.str "brian") = 1579 := by
  refine ⟨?_, by decide⟩
  intro s h
  show textToSeed s = textToSeedSpec s
  unfold textToSeed textToSeedSpec
  rw [utf16Units_bmp s.data h, sumUnits_eq_sum, List.length_map]
  refine Finset.sum_congr rfl fun i hi => ?_
  have hlt : i < s.data.length := Finset.mem_range.mp hi
  rw [getD_map_toNat s.data i hlt]
  congr 1
  omega

/-- Witness for the amended claim C6 at the concrete string "brian". -/
theorem textToSeed_codepoint_sum_witness :
    normalizeSeed (.str "brian") = textToSeedSpec "brian" :=
  textToSeed_codepoint_sum.1 "brian" (by decide)

/-! ## Claim C9: determinism and totality -/

/-- Claim C9: the core operations are pure functions of their inputs —
two invocations with identical inputs return identical outputs — and are
total over their embedded domains (any rational/string/absent seed, any
integer digit count), so no in-domain invocation fails. -/
theorem core_determinism_totality :
    (∀ a b : RawSeed, a = b → normalizeSeed a = normalizeSeed b) ∧
    (∀ (s t : Nat) (c d : Int), s = t → c = d → fillDigits s c = fillDigits t d) ∧
    (∀ s t : Nat, s = t →
      digitSum s = digitSum t ∧ digitProduct s = digitProduct t ∧
      firstDigit s = firstDigit t ∧ lastDigit s = lastDigit t ∧
      ∀ n : Nat, lastN s n = lastN t n) ∧
    (∀ (mn mx : Int) (a b : RawSeed), a = b → range mn mx a = range mn mx b) ∧
    (∀ (d : Int) (a b : RawSeed), a = b → pdrng d a = pdrng d b) ∧
    (∀ (d : Int) (a : RawSeed), ∃ v : Nat, pdrng d a = v) := by
  refine ⟨?_, ?_, ?_, ?_, ?_, ?_⟩ <;> intros <;> subst_vars <;> simp

/-- Witness for claim C9 at concrete inputs. -/
theorem core_determinism_totality_witness :
    range 1 100 (.num 814) = range 1 100 (.num 814) :=
  core_determinism_totality.2.2.2.1 1 100 (.num 814) (.num 814) rfl

/-! ## Claim C10: float stays inside the unit interval -/

lemma parse_div_pow_bounds (l : List Nat) (h : ∀ d ∈ l, d < 10) :
    0 ≤ (parseDigits l : ℚ) / 10 ^ l.length ∧
      (parseDigits l : ℚ) / 10 ^ l.length < 1 := by
  have hpow : (0 : ℚ) < 10 ^ l.length := by positivity
  constructor
  · exact div_nonneg (Nat.cast_nonneg _) (le_of_lt hpow)
  · rw [div_lt_one hpow]
    exact_mod_cast parse_lt l h

/-- Claim C10: for every seed input and every precision, the float
operation returns a value `v` with `0 ≤ v < 1`: the digit-filled integer
is left-padded with zeros to the requested precision and placed after
"0.", a digit string whose parse is always below `10 ^ length`. -/
theorem float_in_unit_interval (precision : Int) (raw : RawSeed) :
    0 ≤ float precision raw ∧ float precision raw < 1 := by
  unfold float
  apply parse_div_pow_bounds
  intro d hd
  unfold floatDigits at hd
  rcases List.mem_append.mp hd with hz | hs
  · rw [List.eq_of_mem_replicate hz]
    norm_num
  · exact jsString_mem_lt hs

/-- Witness for claim C10 at concrete inputs. -/
theorem float_in_unit_interval_witness :
    0 ≤ float 6 .undefined ∧ float 6 .undefined < 1 :=
  float_in_unit_interval 6 .undefined

/-! ## Claim C8: batch array elements as a pure per-index formula -/

lemma arrayLoop_eq (seed : Nat) (digits : Int) :
    ∀ (r i : Nat) (acc : List Nat),
      arrayLoop seed digits i r acc =
        acc ++ (List.range r).map (fun k =>
          fillDigits (normalizeSeed
            (.num ((seed + (i + k) * digitProduct seed : Nat) : ℚ))) digits) := by
  intro r
  induction r with
  | zero => intro i acc; simp [arrayLoop]
  | succ r ih =>
      intro i acc
      simp only [arrayLoop]
      rw [ih (i + 1), List.range_succ_eq_map, List.map_cons, List.map_map]
      have hfun :
          ((fun k => fillDigits (normalizeSeed
              (.num ((seed + (i + k) * digitProduct seed : Nat) : ℚ))) digits) ∘ Nat.succ) =
            fun k => fillDigits (normalizeSeed
              (.num ((seed + (i + 1 + k) * digitProduct seed : Nat) : ℚ))) digits := by
        funext k
        simp only [Function.comp]
        have : i + (k + 1) = i + 1 + k := by omega
        rw [Nat.succ_eq_add_one, this]
      rw [hfun]
      simp [List.append_assoc]

/-- Claim C8: the `i`-th element (0-based, `i < count`) of the batch
array operation equals
`fill(normalize(seed + i * digitProduct(seed)), digits)` for the
normalized base seed, and the array has exactly `count` elements; no
state besides the index influences an element. -/
theorem array_element_formula (count : Nat) (digits : Int) (raw : RawSeed) :
    (array count digits raw).length = count ∧
    ∀ i : Nat, i < count →
      (array count digits raw)[i]? =
        some (fillDigits (normalizeSeed (.num
          ((normalizeSeed raw + i * digitProduct (normalizeSeed raw) : Nat) : ℚ))) digits) := by
  unfold array
  rw [arrayLoop_eq (normalizeSeed raw) digits count 0 []]
  simp only [List.nil_append, Nat.zero_add]
  constructor
  · simp
  · intro i hi
    rw [List.getElem?_map, List.getElem?_range hi]
    rfl

/-- Witness for claim C8 at concrete inputs. -/
theorem array_element_formula_witness :
    (array 3 2 .undefined)[1]? =
      some (fillDigits (normalizeSeed (.num
        ((normalizeSeed .undefined + 1 * digitProduct (normalizeSeed .undefined) : Nat) : ℚ))) 2) :=
  (array_element_formula 3 2 .undefined).2 1 (by decide)

/-! ## Claim C2: digit count of the fill operation -/

lemma flatten_replicate_length (m : Nat) (s : List Nat) :
    ((List.replicate m s).flatten).length = m * s.length := by
  induction m with
  | zero => simp
  | succ m ih =>
      rw [List.replicate_succ, List.flatten_cons, List.length_append, ih]
      ring

lemma flatten_replicate_mem {m : Nat} {s : List Nat} {d : Nat}
    (h : d ∈ (List.replicate m s).flatten) : d ∈ s := by
  induction m with
  | zero => simp at h
  | succ m ih =>
      rw [List.replicate_succ, List.flatten_cons, List.mem_append] at h
      exact h.elim id ih

lemma firstDigit_lt (n : Nat) : firstDigit n < 10 := by
  obtain ⟨h, t, hht⟩ := List.exists_cons_of_ne_nil (jsString_ne_nil n)
  have hmem : h ∈ jsString n := by rw [hht]; exact List.mem_cons_self h t
  unfold firstDigit
  rw [hht]
  exact jsString_mem_lt hmem

lemma firstDigit_ne_zero {n : Nat} (hn : n ≠ 0) : firstDigit n ≠ 0 := by
  obtain ⟨h, t, hht, hh⟩ := jsString_head hn
  unfold firstDigit
  rw [hht]
  exact hh

lemma fillTail_mem {seed cnt d : Nat} (h : d ∈ fillTail seed cnt) : d < 10 := by
  unfold fillTail fillRem at h
  rcases List.mem_append.mp h with hb | ht
  · exact jsString_mem_lt (flatten_replicate_mem hb)
  · split at ht
    · simp at ht
    · split at ht
      · exact jsString_mem_lt ht
      · exact jsString_mem_lt ht

lemma digitCount_parse_le {l : List Nat} (hl : 1 ≤ l.length)
    (hlt : ∀ d ∈ l, d < 10) : digitCount (parseDigits l) ≤ l.length :=
  digitCount_le_of_lt_pow hl (parse_lt l hlt)

lemma digitCount_parse {h : Nat} {t : List Nat} (hlt : ∀ d ∈ h :: t, d < 10)
    (hh : h ≠ 0) : digitCount (parseDigits (h :: t)) = t.length + 1 := by
  have hup : parseDigits (h :: t) < 10 ^ (t.length + 1) := by
    have := parse_lt (h :: t) hlt
    rwa [List.length_cons] at this
  have hlow : 10 ^ t.length ≤ parseDigits (h :: t) := by
    rw [parse_cons]
    have h1 : 1 * 10 ^ t.length ≤ h * 10 ^ t.length :=
      Nat.mul_le_mul_right _ (by omega)
    omega
  exact digitCount_eq_of_bounds hlow hup

lemma fillTail_length_le {seed cnt : Nat} (hL : (jsString seed).length < cnt) :
    1 ≤ (fillTail seed cnt).length ∧ (fillTail seed cnt).length ≤ cnt := by
  have hL1 : 1 ≤ (jsString seed).length := digitCount_pos seed
  have hdm : (jsString seed).length * (cnt / (jsString seed).length) +
      cnt % (jsString seed).length = cnt := Nat.div_add_mod cnt _
  have hm1 : 1 ≤ cnt / (jsString seed).length :=
    (Nat.one_le_div_iff (by omega)).mpr (by omega)
  have hremlt : cnt % (jsString seed).length < (jsString seed).length :=
    Nat.mod_lt _ (by omega)
  have hbase : 1 ≤ (cnt / (jsString seed).length) * (jsString seed).length :=
    Nat.mul_pos hm1 hL1
  unfold fillTail fillRem
  rw [List.length_append, flatten_replicate_length,
    Nat.mul_comm (cnt / (jsString seed).length) ((jsString seed).length)] at *
  constructor
  · omega
  · split
    · simp only [List.length_nil]
      omega
    · split
      · rw [jsString_single (firstDigit_lt seed)]
        simp only [List.length_singleton]
        omega
      · have hrem1 : 1 ≤ cnt % (jsString seed).length := by omega
        rw [lastN_eq_mod hrem1 (by unfold digitCount; omega)]
        have hmlt : seed % 10 ^ (cnt % (jsString seed).length) <
            10 ^ (cnt % (jsString seed).length) :=
          Nat.mod_lt _ (Nat.pos_pow_of_pos _ (by norm_num))
        have hdc : digitCount (seed % 10 ^ (cnt % (jsString seed).length)) ≤
            cnt % (jsString seed).length :=
          digitCount_le_of_lt_pow hrem1 hmlt
        unfold digitCount at hdc
        omega

lemma fillTail_length_eq {seed cnt : Nat} (hz : (0 : Nat) ∉ jsString seed)
    (hL : (jsString seed).length < cnt) : (fillTail seed cnt).length = cnt := by
  have hL1 : 1 ≤ (jsString seed).length := digitCount_pos seed
  have hdm : (jsString seed).length * (cnt / (jsString seed).length) +
      cnt % (jsString seed).length = cnt := Nat.div_add_mod cnt _
  have hremlt : cnt % (jsString seed).length < (jsString seed).length :=
    Nat.mod_lt _ (by omega)
  unfold fillTail fillRem
  rw [List.length_append, flatten_replicate_length,
    Nat.mul_comm (cnt / (jsString seed).length) ((jsString seed).length)]
  split
  · simp only [List.length_nil]
    omega
  · split
    · rw [jsString_single (firstDigit_lt seed)]
      simp only [List.length_singleton]
      omega
    · have hrem1 : 1 ≤ cnt % (jsString seed).length := by omega
      rw [lastN_eq_mod hrem1 (by unfold digitCount; omega)]
      have hdc : digitCount (seed % 10 ^ (cnt % (jsString seed).length)) =
          cnt % (jsString seed).length :=
        mod_pow_digitCount hrem1 (by unfold digitCount; omega) hz
      unfold digitCount at hdc
      omega

lemma fillTail_cons {seed cnt : Nat} (hs : seed ≠ 0)
    (hL : (jsString seed).length < cnt) :
    ∃ t, fillTail seed cnt = firstDigit seed :: t := by
  obtain ⟨h, t0, hht, hh⟩ := jsString_head hs
  have hfd : firstDigit seed = h := by
    unfold firstDigit
    rw [hht]
    rfl
  have hL1 : 1 ≤ (jsString seed).length := digitCount_pos seed
  have hm1 : 1 ≤ cnt / (jsString seed).length :=
    (Nat.one_le_div_iff (by omega)).mpr (by omega)
  obtain ⟨m', hm'⟩ : ∃ m', cnt / (jsString seed).length = m' + 1 :=
    ⟨cnt / (jsString seed).length - 1, by omega⟩
  have heq : fillTail seed cnt =
      firstDigit seed ::
        (t0 ++ ((List.replicate m' (h :: t0)).flatten ++ fillRem seed cnt)) := by
    unfold fillTail
    rw [hm', List.replicate_succ, List.flatten_cons, hfd]
    conv_lhs => rw [hht]
    rw [List.cons_append, List.cons_append, List.append_assoc]
  exact ⟨_, heq⟩

/-- The digit count delivered by the positive-count fill body: at most
`cnt` digits always, and exactly `cnt` digits when no decimal digit of
the seed is zero. -/
theorem fillPos_digitCount (seed cnt : Nat) (hs : 1 ≤ seed) (hc : 1 ≤ cnt) :
    digitCount (fillPos seed cnt) ≤ cnt ∧
      ((0 : Nat) ∉ jsString seed → digitCount (fillPos seed cnt) = cnt) := by
  have hsne : seed ≠ 0 := by omega
  unfold fillPos
  by_cases h1 : cnt < (jsString seed).length
  · rw [if_pos h1]
    by_cases hc1 : cnt = 1
    · rw [if_pos hc1]
      have hone : digitCount (firstDigit seed) = 1 :=
        digitCount_single (firstDigit_lt seed)
      subst hc1
      exact ⟨le_of_eq hone, fun _ => hone⟩
    · rw [if_neg hc1]
      have h1' : cnt < digitCount seed := by unfold digitCount; omega
      rw [lastN_eq_mod hc h1']
      have hlt10 : seed % 10 ^ cnt < 10 ^ cnt :=
        Nat.mod_lt _ (Nat.pos_pow_of_pos _ (by norm_num))
      exact ⟨digitCount_le_of_lt_pow hc hlt10,
        fun hz => mod_pow_digitCount hc h1' hz⟩
  · rw [if_neg h1]
    by_cases h2 : cnt = (jsString seed).length
    · rw [if_pos h2]
      have heq : digitCount seed = cnt := by unfold digitCount; omega
      exact ⟨le_of_eq heq, fun _ => heq⟩
    · rw [if_neg h2]
      have hL : (jsString seed).length < cnt := by omega
      obtain ⟨hlen1, hlenle⟩ := fillTail_length_le hL
      constructor
      · exact le_trans (digitCount_parse_le hlen1 fun d hd => fillTail_mem hd) hlenle
      · intro hz
        obtain ⟨t, ht⟩ := fillTail_cons hsne hL
        have hmem : ∀ d ∈ firstDigit seed :: t, d < 10 := by
          rw [← ht]
          exact fun d hd => fillTail_mem hd
        rw [ht, digitCount_parse hmem (firstDigit_ne_zero hsne)]
        have hlen : (fillTail seed cnt).length = cnt := fillTail_length_eq hz hL
        rw [ht, List.length_cons] at hlen
        omega

/-- Counterexample to claim C2: the canonical seed 105 contains a zero
digit, so `fill(105, 2) = lastN(105, 2) = Number("05") = 5`, whose
decimal representation has 1 digit, not the requested 2. -/
theorem fill_shorter_at_105 :
    (1 : Nat) ≤ 105 ∧ (1 : Int) ≤ 2 ∧ fillDigits 105 2 = 5 ∧
    digitCount (fillDigits 105 2) ≠ (2 : Int).toNat := by
  decide

/-- Claim C2 as amended: for every canonical seed and `count ≤ 0`,
`fill` returns 0; for `count ≥ 1` the result has at most `count` decimal
digits, with exactly `count` digits whenever every decimal digit of the
seed is nonzero; seeds containing a zero digit can produce fewer digits
through leading-zero collapse in `lastN` (for example seed 105 at
count 2). -/
theorem fill_digit_count (seed : Nat) (hs : 1 ≤ seed) (count : Int) :
    (count ≤ 0 → fillDigits seed count = 0) ∧
    (1 ≤ count →
      digitCount (fillDigits seed count) ≤ count.toNat ∧
      ((0 : Nat) ∉ jsString seed → digitCount (fillDigits seed count) = count.toNat)) := by
  constructor
  · intro h
    unfold fillDigits
    rw [if_pos h]
  · intro h
    unfold fillDigits
    rw [if_neg (by omega)]
    exact fillPos_digitCount seed count.toNat hs (by omega)

/-- Witness for the amended claim C2 at concrete inputs. -/
theorem fill_digit_count_witness :
    digitCount (fillDigits 814 5) = (5 : Int).toNat :=
  ((fill_digit_count 814 (by decide) 5).2 (by decide)).2 (by decide)

end Pdrng
